import Mathlib

/-!
Verification of `examples/lm.py` (character-level LSTM language model
example of the bnas library).  The script's orchestration code — corpus
loading, the training loop with its NaN abort, the command-line dispatch,
the train/test split, and model (de)serialization — is embedded shallowly
below.  Library routines of bnas that the script calls but that are not
part of the inspected sources (`mask_sequences`, `beam`, `Model.save` /
`Model.load`) and `pickle` are modelled from the specification, as marked
in their doc comments.
-/

/-- Python `str.strip()` on a line represented as a list of characters:
remove leading and trailing whitespace. -/
def pyStrip (l : List Char) : List Char :=
  ((l.dropWhile Char.isWhitespace).reverse.dropWhile Char.isWhitespace).reverse

/-- Corpus loading, lm.py line 154:
`sents = [line.strip() for line in f if len(line) >= 10]`.
A raw line, as produced by iterating a Python text-file object, includes
its trailing newline character; the length test is applied to the raw
line, the strip afterwards. -/
def load_corpus_sents (rawLines : List (List Char)) : List (List Char) :=
  (rawLines.filter (fun l => decide (10 ≤ l.length))).map pyStrip

/-- A training loss value as returned by `optimizer.step`: a
floating-point number, which may be NaN, infinite, or an ordinary finite
value (the finite values modelled as rationals). -/
inductive LossVal where
  | nan : LossVal
  | posInf : LossVal
  | negInf : LossVal
  | finite : ℚ → LossVal
deriving DecidableEq

/-- `np.isnan` applied to a loss value (lm.py line 217): true exactly on
NaN, false on everything else, infinities included. -/
def np_isnan : LossVal → Bool
  | LossVal.nan => true
  | _ => false

/-- `np.isfinite`: true exactly on ordinary finite values, false on NaN
and on both infinities. -/
def np_isfinite : LossVal → Bool
  | LossVal.finite _ => true
  | _ => false

/-- Observable actions of the `__main__` block, in program order. -/
inductive Event where
  | buildModel : Event
  | loadModel : Event
  | optStep : Event
  | printNaN : Event
  | saveModel : Event
  | searchCall : Event
deriving DecidableEq

/-- The training loop body (lm.py lines 204-226; the epoch loop
`for i in range(1)` runs its inner loop exactly once), driven by the
oracle list `losses` of the loss values that successive `optimizer.step`
calls return, one per batch produced by `iterate_batches`: each iteration
performs an optimizer step, and if the returned loss is NaN the script
prints the abort message and breaks out of the loop. -/
def stepEvents : List LossVal → List Event
  | [] => []
  | l :: ls =>
    if np_isnan l then [Event.optStep, Event.printNaN]
    else Event.optStep :: stepEvents ls

/-- Number of optimizer steps the loop performs. -/
def stepsRun (losses : List LossVal) : Nat :=
  (stepEvents losses).count Event.optStep

/-- The training branch of `__main__` (lm.py lines 149-231, then 233):
build the model, run the training loop, then unconditionally save the
model and finally run the beam search. -/
def trainEvents (losses : List LossVal) : List Event :=
  Event.buildModel :: stepEvents losses ++ [Event.saveModel, Event.searchCall]

/-- The load branch of `__main__` (lm.py lines 141-148, then 233): build
the model from the unpickled config, load its parameters, run the beam
search.  No optimizer step and no file write occurs. -/
def loadEvents : List Event :=
  [Event.buildModel, Event.loadModel, Event.searchCall]

/-- Result of running the script: a trace of events, or an uncaught
exception — `IndexError` from a missing `sys.argv` entry, or
`AssertionError` from `assert os.path.exists(corpus_filename)`
(lm.py line 151).  An exception escapes before any model is built or any
file is written, so the error results carry no trace. -/
inductive ScriptResult where
  | ok : List Event → ScriptResult
  | indexError : ScriptResult
  | assertError : ScriptResult
deriving DecidableEq

/-- Top-level dispatch of `__main__` (lm.py lines 139-151): take
`sys.argv[1]` as the model path; if that file exists take the load
branch, otherwise take `sys.argv[2]` as the corpus path, assert that it
exists, and take the training branch.  `existing` is the set of paths on
which `os.path.exists` returns true, and `losses` is the optimizer
oracle feeding the training loop. -/
def runMain (argv : List String) (existing : List String)
    (losses : List LossVal) : ScriptResult :=
  match argv[1]? with
  | none => ScriptResult.indexError
  | some model_filename =>
    if model_filename ∈ existing then ScriptResult.ok loadEvents
    else
      match argv[2]? with
      | none => ScriptResult.indexError
      | some corpus_filename =>
        if corpus_filename ∈ existing then ScriptResult.ok (trainEvents losses)
        else ScriptResult.assertError

/-- Training-specific parameter, lm.py line 174: `test_size = 128`. -/
def test_size : Nat := 128

/-- lm.py line 198: `test_set = encoded[:test_size]`. -/
def test_set (encoded : List (List Nat)) : List (List Nat) :=
  encoded.take test_size

/-- lm.py line 199: `train_set = encoded[test_size:]`. -/
def train_set (encoded : List (List Nat)) : List (List Nat) :=
  encoded.drop test_size

/-- lm.py line 205: the sequence list handed to `iterate_batches`, i.e.
the data the optimizer iterates over, is `train_set`. -/
def optimizer_input (encoded : List (List Nat)) : List (List Nat) :=
  train_set encoded

/-- The model configuration dict built at lm.py lines 160-168: the
vocabulary (`symbols` table and `index` dict, the latter as an
association list) together with the hyperparameters.  Python strings are
lists of characters; the float `dropout` is a rational. -/
structure LMConfig where
  n_symbols : Nat
  symbols : List Char
  index : List (Char × Nat)
  embedding_dims : Nat
  state_dims : Nat
  layernorm : List Char
  dropout : ℚ
deriving DecidableEq

/-- The concrete configuration record of lm.py lines 160-168. -/
def make_config (symbols : List Char) (index : List (Char × Nat)) : LMConfig :=
  { n_symbols := symbols.length, symbols := symbols, index := index,
    embedding_dims := 64, state_dims := 1024, layernorm := ['c'],
    dropout := 1/5 }

/-- The flattened numeric parameter values of the model, as written by
`Model.save`; floats modelled as rationals. -/
abbrev Params := List ℚ

/-- Serialization primitive: a natural number as a one-token field. -/
def enc_nat (n : Nat) : List Nat := [n]

/-- Serialization primitive: a character as its code point. -/
def enc_char (c : Char) : List Nat := [c.toNat]

/-- Serialization primitive: a rational as sign, absolute numerator,
denominator. -/
def enc_rat (q : ℚ) : List Nat :=
  [if q.num < 0 then 1 else 0, q.num.natAbs, q.den]

/-- Serialization of the elements of a list, back to back. -/
def enc_all {α : Type} (enc : α → List Nat) : List α → List Nat
  | [] => []
  | x :: xs => enc x ++ enc_all enc xs

/-- Serialization of a list: length first, then the elements. -/
def enc_list {α : Type} (enc : α → List Nat) (xs : List α) : List Nat :=
  xs.length :: enc_all enc xs

/-- Serialization of one vocabulary-index entry (character, id). -/
def enc_entry (e : Char × Nat) : List Nat := enc_char e.1 ++ enc_nat e.2

/-- Deserialize a natural number, returning it with the unread rest. -/
def dec_nat : List Nat → Option (Nat × List Nat)
  | [] => none
  | n :: r => some (n, r)

/-- Deserialize a character. -/
def dec_char (r : List Nat) : Option (Char × List Nat) :=
  (dec_nat r).map (fun p => (Char.ofNat p.1, p.2))

/-- Deserialize a rational. -/
def dec_rat : List Nat → Option (ℚ × List Nat)
  | s :: na :: d :: r =>
    some (mkRat (if s = 1 then -(na : Int) else (na : Int)) d, r)
  | _ => none

/-- Deserialize exactly `k` consecutive elements. -/
def dec_count {α : Type} (dec : List Nat → Option (α × List Nat)) :
    Nat → List Nat → Option (List α × List Nat)
  | 0, r => some ([], r)
  | k+1, r =>
    match dec r with
    | none => none
    | some (a, r1) =>
      match dec_count dec k r1 with
      | none => none
      | some (as, r2) => some (a :: as, r2)

/-- Deserialize a length-prefixed list. -/
def dec_list {α : Type} (dec : List Nat → Option (α × List Nat))
    (r : List Nat) : Option (List α × List Nat) :=
  match dec_nat r with
  | none => none
  | some (k, r1) => dec_count dec k r1

/-- Deserialize one vocabulary-index entry. -/
def dec_entry (r : List Nat) : Option ((Char × Nat) × List Nat) :=
  match dec_char r with
  | none => none
  | some (c, r1) =>
    match dec_nat r1 with
    | none => none
    | some (n, r2) => some ((c, n), r2)

/-- Modelled from the spec: `pickle.dump(config, f)` (lm.py line 229;
`pickle` is not part of the inspected sources) — serialize the
configuration record onto the stream field by field. -/
def pickle_dump (c : LMConfig) : List Nat :=
  enc_nat c.n_symbols ++ enc_list enc_char c.symbols ++
  enc_list enc_entry c.index ++ enc_nat c.embedding_dims ++
  enc_nat c.state_dims ++ enc_list enc_char c.layernorm ++ enc_rat c.dropout

/-- Modelled from the spec: `config = pickle.load(f)` (lm.py line 143) —
read one configuration record from the front of the stream, returning it
together with the unread remainder of the stream. -/
def pickle_load (r : List Nat) : Option (LMConfig × List Nat) := do
  let (ns, r1) ← dec_nat r
  let (syms, r2) ← dec_list dec_char r1
  let (idx, r3) ← dec_list dec_entry r2
  let (ed, r4) ← dec_nat r3
  let (sd, r5) ← dec_nat r4
  let (ln, r6) ← dec_list dec_char r5
  let (dr, r7) ← dec_rat r6
  pure ({ n_symbols := ns, symbols := syms, index := idx,
          embedding_dims := ed, state_dims := sd, layernorm := ln,
          dropout := dr }, r7)

/-- Modelled from the spec: `lm.save(f)` (lm.py line 230; `Model.save`
lives in bnas, outside the inspected sources) — serialize the parameter
list after the pickled config. -/
def model_save (ps : Params) : List Nat := enc_list enc_rat ps

/-- Modelled from the spec: `lm.load(f)` (lm.py line 145) — read the
parameter list from the remainder of the file. -/
def model_load (r : List Nat) : Option Params :=
  (dec_list dec_rat r).map Prod.fst

/-- Saving the model, lm.py lines 228-231: the pickled config is written
first, the serialized parameters follow. -/
def save_model_file (c : LMConfig) (ps : Params) : List Nat :=
  pickle_dump c ++ model_save ps

/-- Loading the model, lm.py lines 142-145: the config is unpickled from
the front of the file, then the parameters are loaded from the
remainder. -/
def load_model_file (r : List Nat) : Option (LMConfig × Params) := do
  let (c, rest) ← pickle_load r
  let ps ← model_load rest
  pure (c, ps)

/-- The common row length of a batch: the longest sequence length, capped
by the configured maximum length. -/
def padded_length (seqs : List (List Nat)) (max_length : Nat) : Nat :=
  min max_length ((seqs.map List.length).foldr max 0)

/-- Modelled from the spec: `mask_sequences` from `bnas.text` (called at
lm.py lines 202 and 206; `bnas/text.py` is not among the inspected
sources) — encode a list of symbol sequences as a rectangular matrix,
each row truncated to and padded with zeros up to the common length
`padded_length`, together with a boolean mask matrix that is true at the
valid (non-padding) positions and false at the padding positions. -/
def mask_sequences (seqs : List (List Nat)) (max_length : Nat) :
    List (List Nat) × List (List Bool) :=
  (seqs.map (fun s => s.take (padded_length seqs max_length) ++
      List.replicate (padded_length seqs max_length - s.length) 0),
   seqs.map (fun s =>
      List.replicate (min s.length (padded_length seqs max_length)) true ++
      List.replicate (padded_length seqs max_length - s.length) false))

/-- Modelled from the spec: the candidate selection of `beam` from
`bnas.search` (not among the inspected sources) — the best-scoring
symbol of the `n_symbols` vocabulary entries under the model's score
function, where a `banned` symbol (the stop symbol, while the output is
still shorter than `min_length`) is excluded from consideration. -/
def best_symbol (score : Nat → ℚ) (n_symbols : Nat) (banned : Option Nat) :
    Option Nat :=
  ((List.range n_symbols).filter (fun s => decide (some s ≠ banned))).argmax score

/-- Modelled from the spec: the generation loop of `beam` from
`bnas.search` — `acc` holds the symbols emitted so far in reverse order;
each round emits the best allowed symbol for the current history, the
stop symbol being banned while fewer than `min_length` symbols have been
emitted; generation ends upon emitting the stop symbol or once
`max_length` symbols (the fuel) have been emitted. -/
def beam_go (score : List Nat → Nat → ℚ)
    (n_symbols stop_symbol min_length : Nat) :
    Nat → List Nat → List Nat
  | 0, acc => acc.reverse
  | fuel+1, acc =>
    match best_symbol (score acc.reverse) n_symbols
        (if acc.length < min_length then some stop_symbol else none) with
    | none => acc.reverse
    | some s =>
      if s = stop_symbol then (s :: acc).reverse
      else beam_go score n_symbols stop_symbol min_length fuel (s :: acc)

/-- Modelled from the spec: `beam` from `bnas.search` for batch size one,
as invoked by `LanguageModel.search` (lm.py lines 109-131 and 233-234) —
the emitted output sequence, generated from the start symbol under the
abstract score function `score` (which stands for the compiled
single-step function of the network: `score history s` is the score of
emitting symbol `s` after the partial output `history`). -/
def beam (score : List Nat → Nat → ℚ)
    (n_symbols start_symbol stop_symbol max_length min_length : Nat) :
    List Nat :=
  beam_go (fun hist => score (start_symbol :: hist)) n_symbols stop_symbol
    min_length max_length []

theorem dec_nat_enc (n : Nat) (r : List Nat) :
    dec_nat (enc_nat n ++ r) = some (n, r) := rfl

theorem dec_char_enc (c : Char) (r : List Nat) :
    dec_char (enc_char c ++ r) = some (c, r) := by
  simp [dec_char, enc_char, dec_nat, Char.ofNat_toNat]

theorem dec_rat_enc (q : ℚ) (r : List Nat) :
    dec_rat (enc_rat q ++ r) = some (q, r) := by
  by_cases h : q.num < 0
  · have hna : (q.num.natAbs : Int) = -q.num := by omega
    simp [enc_rat, dec_rat, h, hna, Rat.mkRat_self]
  · have hna : (q.num.natAbs : Int) = q.num := by omega
    simp [enc_rat, dec_rat, h, hna, Rat.mkRat_self]

theorem dec_count_enc {α : Type} (enc : α → List Nat)
    (dec : List Nat → Option (α × List Nat))
    (h : ∀ (a : α) (r : List Nat), dec (enc a ++ r) = some (a, r)) :
    ∀ (xs : List α) (r : List Nat),
      dec_count dec xs.length (enc_all enc xs ++ r) = some (xs, r) := by
  intro xs
  induction xs with
  | nil => intro r; simp [enc_all, dec_count]
  | cons x xs ih =>
    intro r
    have hx : enc x ++ enc_all enc xs ++ r = enc x ++ (enc_all enc xs ++ r) :=
      List.append_assoc _ _ _
    simp only [enc_all, List.length_cons, dec_count, hx, h x, ih r]

theorem dec_list_enc {α : Type} (enc : α → List Nat)
    (dec : List Nat → Option (α × List Nat))
    (h : ∀ (a : α) (r : List Nat), dec (enc a ++ r) = some (a, r))
    (xs : List α) (r : List Nat) :
    dec_list dec (enc_list enc xs ++ r) = some (xs, r) := by
  simp only [enc_list, List.cons_append, dec_list, dec_nat]
  exact dec_count_enc enc dec h xs r

theorem dec_entry_enc (e : Char × Nat) (r : List Nat) :
    dec_entry (enc_entry e ++ r) = some (e, r) := by
  have hx : enc_char e.1 ++ enc_nat e.2 ++ r = enc_char e.1 ++ (enc_nat e.2 ++ r) :=
    List.append_assoc _ _ _
  simp only [enc_entry, dec_entry, hx, dec_char_enc, dec_nat_enc]

theorem dec_list_char_enc (xs : List Char) (r : List Nat) :
    dec_list dec_char (enc_list enc_char xs ++ r) = some (xs, r) :=
  dec_list_enc enc_char dec_char dec_char_enc xs r

theorem dec_list_entry_enc (xs : List (Char × Nat)) (r : List Nat) :
    dec_list dec_entry (enc_list enc_entry xs ++ r) = some (xs, r) :=
  dec_list_enc enc_entry dec_entry dec_entry_enc xs r

theorem dec_list_rat_enc (xs : List ℚ) (r : List Nat) :
    dec_list dec_rat (enc_list enc_rat xs ++ r) = some (xs, r) :=
  dec_list_enc enc_rat dec_rat dec_rat_enc xs r

theorem pickle_load_dump (c : LMConfig) (r : List Nat) :
    pickle_load (pickle_dump c ++ r) = some (c, r) := by
  simp [pickle_dump, List.append_assoc, pickle_load, dec_nat_enc,
    dec_list_char_enc, dec_list_entry_enc, dec_rat_enc, Option.some_bind]

theorem model_load_save (ps : Params) :
    model_load (model_save ps) = some ps := by
  have h : model_save ps = enc_list enc_rat ps ++ [] := by
    simp [model_save]
  rw [model_load, h, dec_list_rat_enc]
  rfl

/-- C3: saving a trained model and loading the resulting file is the
identity on the configuration record — the vocabulary (symbols list and
index mapping) and every hyperparameter value come back unchanged, as do
the parameter values. -/
theorem save_load_roundtrip (c : LMConfig) (ps : Params) :
    load_model_file (save_model_file c ps) = some (c, ps) := by
  simp [load_model_file, save_model_file, pickle_load_dump,
    model_load_save, Option.some_bind]

/-- C5: the persisted model file is the pickled configuration record
followed by the serialized parameters, and loading reads them back in
that order: the configuration is unpickled from the front of the file,
then the parameters are loaded from the remainder. -/
theorem model_file_layout (c : LMConfig) (ps : Params) :
    save_model_file c ps = pickle_dump c ++ model_save ps ∧
    pickle_load (save_model_file c ps) = some (c, model_save ps) ∧
    model_load (model_save ps) = some ps :=
  ⟨rfl, pickle_load_dump c (model_save ps), model_load_save ps⟩

/-- C10: the encoded corpus is split positionally, the test set being the
first `test_size` (128) encoded sentences and the training set the rest:
the two concatenate back to the whole corpus, the test set holds exactly
the entries at positions below 128 (exactly 128 of them whenever the
corpus is large enough), the training set holds the entry at position
`128 + j` at each position `j`, and the optimizer iterates exactly the
training set. -/
theorem train_test_split (encoded : List (List Nat)) :
    test_set encoded ++ train_set encoded = encoded ∧
    (∀ i : Nat, (test_set encoded)[i]? =
      if i < test_size then encoded[i]? else none) ∧
    (∀ j : Nat, (train_set encoded)[j]? = encoded[test_size + j]?) ∧
    (test_size ≤ encoded.length → (test_set encoded).length = test_size) ∧
    optimizer_input encoded = train_set encoded := by
  refine ⟨List.take_append_drop _ _, fun i => List.getElem?_take,
    fun j => List.getElem?_drop _ _ _, fun h => ?_, rfl⟩
  simp only [test_set, List.length_take]
  omega

/-- C10 witness: on a corpus of 130 encoded sentences the test set has
exactly 128 entries. -/
theorem train_test_split_witness :
    test_size ≤ (List.replicate 130 ([] : List Nat)).length ∧
    (test_set (List.replicate 130 ([] : List Nat))).length = test_size :=
  ⟨by simp [test_size], (train_test_split (List.replicate 130 ([] : List Nat))).2.2.2.1
    (by simp [test_size])⟩

theorem mem_stepEvents (losses : List LossVal) (e : Event)
    (h : e ∈ stepEvents losses) :
    e = Event.optStep ∨ e = Event.printNaN := by
  induction losses with
  | nil => simp [stepEvents] at h
  | cons l ls ih =>
    by_cases hl : np_isnan l
    · simp [stepEvents, hl] at h
      rcases h with h | h
      · exact Or.inl h
      · exact Or.inr h
    · simp [stepEvents, hl] at h
      rcases h with h | h
      · exact Or.inl h
      · exact ih h

/-- C8: every training run that reaches the end of the epoch loop writes
the model file, whether or not the loop was aborted by a NaN loss: the
save event occurs in the trace of every training run, and never inside
the loop itself. -/
theorem model_saved_always (losses : List LossVal) :
    Event.saveModel ∈ trainEvents losses ∧
    Event.saveModel ∉ stepEvents losses := by
  constructor
  · simp [trainEvents]
  · intro h
    rcases mem_stepEvents losses Event.saveModel h with h' | h' <;> cases h'

/-- C4: command-line dispatch — when the file at `sys.argv[1]` exists the
script takes the load branch, a trace with no optimizer step (no
training); otherwise, given a second argument naming an existing corpus
file, it takes the training branch and finishes with the inference
(beam-search) call. -/
theorem cli_dispatch (argv : List String) (existing : List String)
    (losses : List LossVal) (mf : String) (h1 : argv[1]? = some mf) :
    (mf ∈ existing →
      runMain argv existing losses = ScriptResult.ok loadEvents ∧
      Event.optStep ∉ loadEvents) ∧
    (mf ∉ existing → ∀ cf : String, argv[2]? = some cf → cf ∈ existing →
      runMain argv existing losses = ScriptResult.ok (trainEvents losses) ∧
      Event.searchCall ∈ trainEvents losses) := by
  constructor
  · intro hmem
    refine ⟨?_, by decide⟩
    simp [runMain, h1, hmem]
  · intro hmem cf h2 hcf
    refine ⟨?_, by simp [trainEvents]⟩
    simp [runMain, h1, hmem, h2, hcf]

/-- C4 witness: both dispatch branches at concrete inputs. -/
theorem cli_dispatch_witness :
    runMain ["lm.py", "model.pkl"] ["model.pkl"] [] =
      ScriptResult.ok loadEvents ∧ Event.optStep ∉ loadEvents :=
  (cli_dispatch ["lm.py", "model.pkl"] ["model.pkl"] [] "model.pkl" rfl).1
    (by simp)

/-- C9: when the model file does not exist, a missing second command-line
argument raises `IndexError` and a nonexistent corpus path fails the
`assert`; either way the run ends in an exception result, which in this
embedding carries no trace — no model is built and no file is written. -/
theorem missing_corpus_fails (argv : List String) (existing : List String)
    (losses : List LossVal) (mf : String) (h1 : argv[1]? = some mf)
    (h2 : mf ∉ existing) :
    (argv[2]? = none → runMain argv existing losses = ScriptResult.indexError) ∧
    (∀ cf : String, argv[2]? = some cf → cf ∉ existing →
      runMain argv existing losses = ScriptResult.assertError) := by
  constructor
  · intro hnone
    simp [runMain, h1, h2, hnone]
  · intro cf hcf hcfmem
    simp [runMain, h1, h2, hcf, hcfmem]

/-- C9 witness: with no second argument and a nonexistent model path the
script raises `IndexError`. -/
theorem missing_corpus_fails_witness :
    runMain ["lm.py", "model.pkl"] [] [] = ScriptResult.indexError :=
  (missing_corpus_fails ["lm.py", "model.pkl"] [] [] "model.pkl" rfl
    (by simp)).1 rfl

/-- C1 counterexample: a positively infinite loss is non-finite, yet the
loop's guard `np.isnan` does not fire on it — the run performs a second
optimizer step after the non-finite loss and prints no abort message, so
a non-finite loss does not always halt training. -/
theorem inf_loss_does_not_halt :
    np_isfinite LossVal.posInf = false ∧
    stepsRun [LossVal.posInf, LossVal.finite 0] = 2 ∧
    Event.printNaN ∉ stepEvents [LossVal.posInf, LossVal.finite 0] := by
  refine ⟨rfl, rfl, ?_⟩
  decide

/-- C1 (amended): whenever the loss value returned by an optimizer step
is NaN — `np.isnan` being the guard actually tested, so that infinite
losses do not qualify — the script prints the abort message and breaks
out of the loop at once: when the first NaN is the loss of step `k`
(0-based), exactly `k + 1` optimizer steps run in that epoch. -/
theorem nan_halts (losses : List LossVal) (k : Nat)
    (hk : losses[k]? = some LossVal.nan)
    (hfirst : ∀ j : Nat, j < k → losses[j]? ≠ some LossVal.nan) :
    stepsRun losses = k + 1 ∧ Event.printNaN ∈ stepEvents losses := by
  induction losses generalizing k with
  | nil => simp at hk
  | cons l ls ih =>
    cases k with
    | zero =>
      simp only [List.getElem?_cons_zero, Option.some.injEq] at hk
      subst hk
      constructor
      · simp [stepsRun, stepEvents, np_isnan]
      · simp [stepEvents, np_isnan]
    | succ k =>
      have hl : l ≠ LossVal.nan := by
        intro h
        exact hfirst 0 (Nat.succ_pos k) (by simp [h])
      have hnl : np_isnan l = false := by
        cases l <;> simp [np_isnan] at *
      have hk' : ls[k]? = some LossVal.nan := by simpa using hk
      have hfirst' : ∀ j : Nat, j < k → ls[j]? ≠ some LossVal.nan := by
        intro j hj
        have := hfirst (j + 1) (by omega)
        simpa using this
      obtain ⟨hcount, hmem⟩ := ih k hk' hfirst'
      have hstep : stepEvents (l :: ls) = Event.optStep :: stepEvents ls := by
        simp [stepEvents, hnl]
      constructor
      · rw [stepsRun, hstep, List.count_cons_self]
        simp only [stepsRun] at hcount
        omega
      · rw [hstep]
        exact List.mem_cons_of_mem _ hmem

/-- C1 witness: a NaN loss at step index 1 stops the epoch after exactly
two optimizer steps and prints the abort message. -/
theorem nan_halts_witness :
    stepsRun [LossVal.finite 1, LossVal.nan] = 1 + 1 ∧
    Event.printNaN ∈ stepEvents [LossVal.finite 1, LossVal.nan] :=
  nan_halts [LossVal.finite 1, LossVal.nan] 1 rfl (by decide)

/-- C2 counterexample: the raw line `"abcdefghi\n"` is 10 characters long
counting its newline, so the filter keeps it, yet its stripped content
has only 9 characters — a kept training sentence shorter than 10. -/
theorem short_sentence_kept :
    load_corpus_sents ["abcdefghi\n".toList] = ["abcdefghi".toList] ∧
    ("abcdefghi".toList).length = 9 := by
  constructor
  · rfl
  · rfl

theorem pyStrip_length_le (l : List Char) : (pyStrip l).length ≤ l.length := by
  have h1 : (l.dropWhile Char.isWhitespace).length ≤ l.length :=
    (List.dropWhile_sublist _).length_le
  have h2 : ((l.dropWhile Char.isWhitespace).reverse.dropWhile
      Char.isWhitespace).length ≤ (l.dropWhile Char.isWhitespace).reverse.length :=
    (List.dropWhile_sublist _).length_le
  simp only [pyStrip, List.length_reverse] at *
  omega

/-- C2 (amended): a corpus line is kept exactly when its raw length — the
line as read from the file, trailing newline included, before any
stripping — is at least 10 characters; each kept line then contributes
its stripped content, which is never longer than the raw line but may
well be shorter than 10 characters. -/
theorem corpus_filter (rawLines : List (List Char)) :
    (load_corpus_sents rawLines).length =
      (rawLines.filter (fun l => decide (10 ≤ l.length))).length ∧
    (∀ raw ∈ rawLines, 10 ≤ raw.length →
      pyStrip raw ∈ load_corpus_sents rawLines) ∧
    (∀ s ∈ load_corpus_sents rawLines,
      ∃ raw ∈ rawLines, 10 ≤ raw.length ∧ s = pyStrip raw ∧
        s.length ≤ raw.length) := by
  refine ⟨by simp [load_corpus_sents], ?_, ?_⟩
  · intro raw hraw hlen
    simp only [load_corpus_sents, List.mem_map]
    exact ⟨raw, List.mem_filter.mpr ⟨hraw, by simpa using hlen⟩, rfl⟩
  · intro s hs
    simp only [load_corpus_sents, List.mem_map] at hs
    obtain ⟨raw, hraw, hstrip⟩ := hs
    obtain ⟨hmem, hlen⟩ := List.mem_filter.mp hraw
    exact ⟨raw, hmem, by simpa using hlen, hstrip.symm,
      hstrip ▸ pyStrip_length_le raw⟩

/-- C2 witness: a line of raw length at least 10 is kept in stripped
form. -/
theorem corpus_filter_witness :
    10 ≤ ("hello world\n".toList).length ∧
    pyStrip ("hello world\n".toList) ∈
      load_corpus_sents ["hello world\n".toList] :=
  ⟨by decide, (corpus_filter ["hello world\n".toList]).2.1
    ("hello world\n".toList) (by simp) (by decide)⟩

theorem getElem?_replicate_append (a b j : Nat) :
    (List.replicate a true ++ List.replicate b false)[j]? =
      if j < a then some true else if j < a + b then some false else none := by
  simp only [List.getElem?_append, List.length_replicate, List.getElem?_replicate]
  split_ifs <;> first | rfl | omega

/-- C7: every batch built by `mask_sequences` is rectangular — data and
mask matrices have one row per input sequence, every row has the common
padded length, which never exceeds the configured maximum — and the mask
row of each sequence is true exactly at the valid (non-padding) positions
and false exactly at the padding positions. -/
theorem mask_sequences_spec (seqs : List (List Nat)) (maxL : Nat) :
    (mask_sequences seqs maxL).1.length = seqs.length ∧
    (mask_sequences seqs maxL).2.length = seqs.length ∧
    padded_length seqs maxL ≤ maxL ∧
    (∀ row ∈ (mask_sequences seqs maxL).1,
      row.length = padded_length seqs maxL) ∧
    (∀ mrow ∈ (mask_sequences seqs maxL).2,
      mrow.length = padded_length seqs maxL) ∧
    (∀ i : Nat, ∀ s : List Nat, seqs[i]? = some s →
      ∃ mrow : List Bool, (mask_sequences seqs maxL).2[i]? = some mrow ∧
        ∀ j : Nat, mrow[j]? =
          if j < min s.length (padded_length seqs maxL) then some true
          else if j < padded_length seqs maxL then some false else none) := by
  refine ⟨by simp [mask_sequences], by simp [mask_sequences],
    Nat.min_le_left _ _, ?_, ?_, ?_⟩
  · intro row hrow
    simp only [mask_sequences, List.mem_map] at hrow
    obtain ⟨s, hs, rfl⟩ := hrow
    simp only [List.length_append, List.length_take, List.length_replicate]
    omega
  · intro mrow hmrow
    simp only [mask_sequences, List.mem_map] at hmrow
    obtain ⟨s, hs, rfl⟩ := hmrow
    simp only [List.length_append, List.length_replicate]
    omega
  · intro i s hs
    refine ⟨List.replicate (min s.length (padded_length seqs maxL)) true ++
      List.replicate (padded_length seqs maxL - s.length) false, ?_, ?_⟩
    · simp only [mask_sequences, List.getElem?_map, hs]
      rfl
    · intro j
      rw [getElem?_replicate_append]
      split_ifs <;> first | rfl | omega

/-- C7 witness: concrete batch `[[5, 6, 7]]` with maximum length 2. -/
theorem mask_sequences_spec_witness :
    ([5, 6] : List Nat) ∈ (mask_sequences [[5, 6, 7]] 2).1 ∧
    ([5, 6] : List Nat).length = padded_length [[5, 6, 7]] 2 ∧
    (([[5, 6, 7]] : List (List Nat)))[0]? = some [5, 6, 7] ∧
    (∃ mrow : List Bool, (mask_sequences [[5, 6, 7]] 2).2[0]? = some mrow ∧
      ∀ j : Nat, mrow[j]? =
        if j < min ([5, 6, 7] : List Nat).length (padded_length [[5, 6, 7]] 2)
        then some true
        else if j < padded_length [[5, 6, 7]] 2 then some false else none) :=
  ⟨by decide, (mask_sequences_spec [[5, 6, 7]] 2).2.2.2.1 [5, 6] (by decide),
    rfl, (mask_sequences_spec [[5, 6, 7]] 2).2.2.2.2.2 0 [5, 6, 7] rfl⟩

theorem best_symbol_ne_banned (score : Nat → ℚ) (n b s : Nat)
    (h : best_symbol score n (some b) = some s) : s ≠ b := by
  have hmem : s ∈ (List.range n).filter (fun x => decide (some x ≠ some b)) :=
    List.argmax_mem (show _ ∈ _ from h)
  have := (List.mem_filter.mp hmem).2
  simpa using this

theorem beam_go_length (score : List Nat → Nat → ℚ) (n st ml : Nat) :
    ∀ (fuel : Nat) (acc : List Nat),
      (beam_go score n st ml fuel acc).length ≤ acc.length + fuel := by
  intro fuel
  induction fuel with
  | zero => intro acc; simp [beam_go]
  | succ fuel ih =>
    intro acc
    simp only [beam_go]
    split
    · simp
    · next s hs =>
      by_cases hstop : s = st
      · rw [if_pos hstop]
        simp
      · rw [if_neg hstop]
        have := ih (s :: acc)
        simp only [List.length_cons] at this
        omega

theorem beam_go_no_early_stop (score : List Nat → Nat → ℚ) (n st ml : Nat) :
    ∀ (fuel : Nat) (acc : List Nat),
      (∀ j : Nat, acc.reverse[j]? = some st → ml ≤ j) →
      ∀ j : Nat, (beam_go score n st ml fuel acc)[j]? = some st → ml ≤ j := by
  intro fuel
  induction fuel with
  | zero => intro acc hinv j hj; exact hinv j (by simpa [beam_go] using hj)
  | succ fuel ih =>
    intro acc hinv j
    simp only [beam_go]
    split
    · exact hinv j
    · next s hs =>
      by_cases hstop : s = st
      · subst hstop
        rw [if_pos rfl]
        intro hj
        rw [List.reverse_cons, List.getElem?_append] at hj
        by_cases hjlen : j < acc.reverse.length
        · rw [if_pos hjlen] at hj
          exact hinv j hj
        · have hml : ¬ acc.length < ml := by
            intro hlt
            rw [if_pos hlt] at hs
            exact best_symbol_ne_banned _ n s s hs rfl
          have hl : acc.reverse.length = acc.length := List.length_reverse acc
          omega
      · rw [if_neg hstop]
        refine ih (s :: acc) ?_ j
        intro j' hj'
        rw [List.reverse_cons, List.getElem?_append] at hj'
        by_cases hjl : j' < acc.reverse.length
        · rw [if_pos hjl] at hj'
          exact hinv j' hj'
        · rw [if_neg hjl] at hj'
          cases hz : j' - acc.reverse.length with
          | zero =>
            rw [hz] at hj'
            simp only [List.getElem?_cons_zero, Option.some.injEq] at hj'
            exact absurd hj' hstop
          | succ k =>
            rw [hz] at hj'
            simp at hj'

/-- C6: for every score function and configuration, the emitted beam
search output has length at most `max_length`, and the stop symbol never
occurs at a position below `min_length` in the output. -/
theorem beam_output_bounds (score : List Nat → Nat → ℚ)
    (n_symbols start_symbol stop_symbol max_length min_length : Nat) :
    (beam score n_symbols start_symbol stop_symbol max_length
      min_length).length ≤ max_length ∧
    ∀ j : Nat, j < min_length →
      (beam score n_symbols start_symbol stop_symbol max_length
        min_length)[j]? ≠ some stop_symbol := by
  constructor
  · have h := beam_go_length (fun hist => score (start_symbol :: hist))
      n_symbols stop_symbol min_length max_length []
    simpa [beam] using h
  · intro j hj hcon
    have h := beam_go_no_early_stop (fun hist => score (start_symbol :: hist))
      n_symbols stop_symbol min_length max_length []
      (by intro j' hj'; simp at hj') j (by simpa [beam] using hcon)
    omega

/-- C6 witness: concrete beam search with 3 symbols, stop symbol 1,
maximum length 4, minimum length 2. -/
theorem beam_output_bounds_witness :
    (0 < 2) ∧
    (beam (fun _ s => (s : ℚ)) 3 0 1 4 2)[0]? ≠ some 1 :=
  ⟨by decide,
    (beam_output_bounds (fun _ s => (s : ℚ)) 3 0 1 4 2).2 0 (by decide)⟩
